import Mathlib

/-!
Shallow embedding of `src/main.rs` from jsimmons/amdtop.

Modelling conventions:
* Rust `u64` values are `Nat`; additions that can overflow are reduced
  `% 2 ^ 64` (the wrapping semantics of a release build).
* The `i32` process id is an `Int`, with the `i32` range enforced by the
  parse function, exactly as `str::parse::<i32>` does.
* `str::split_whitespace` is modelled over ASCII whitespace.
* `HashMap<i32, MemInfo>` is modelled as an association list kept in
  first-insertion order; `slice::sort_by_key` (a stable sort) is modelled
  by a stable insertion sort on the same descending key.
* A Rust panic (the out-of-bounds `SUFFIXES[divisions]`) is `Option.none`.
-/

def u64Mod : Nat := 2 ^ 64

def i32Bound : Nat := 2 ^ 31

/-- ASCII restriction of Rust `char::is_whitespace`. -/
def isWS (c : Char) : Bool := c == ' ' || c == '\t' || c == '\n' || c == '\r'

/-- Worker for `splitWS`; `acc` holds the characters of the token being read,
in reverse. -/
def splitWSAux : List Char → List Char → List String
  | [], [] => []
  | [], acc => [String.mk acc.reverse]
  | c :: cs, acc =>
    if isWS c then
      match acc with
      | [] => splitWSAux cs []
      | _ => String.mk acc.reverse :: splitWSAux cs []
    else
      splitWSAux cs (c :: acc)

/-- Rust `str::split_whitespace`: the maximal non-empty runs of
non-whitespace characters, in order. -/
def splitWS (s : String) : List String := splitWSAux s.data []

/-- Digit-string accumulator: the value of the digits consumed so far, or
`none` at the first non-digit character. -/
def parseDigits : List Char → Nat → Option Nat
  | [], acc => some acc
  | c :: cs, acc =>
    if c.isDigit then parseDigits cs (acc * 10 + (c.toNat - '0'.toNat)) else none

/-- Rust `str::parse::<u64>`: optional leading `+`, then one or more ASCII
digits, failing on overflow past `2 ^ 64 - 1`. -/
def parseU64 (s : String) : Option Nat :=
  let cs :=
    match s.data with
    | '+' :: rest => rest
    | cs => cs
  match cs with
  | [] => none
  | _ =>
    match parseDigits cs 0 with
    | some n => if n < u64Mod then some n else none
    | none => none

/-- Rust `str::parse::<i32>`: optional sign, one or more digits, `i32` range
check. -/
def parseI32 (s : String) : Option Int :=
  match s.data with
  | '-' :: rest =>
    match rest, parseDigits rest 0 with
    | _ :: _, some n => if n ≤ i32Bound then some (-(n : Int)) else none
    | _, _ => none
  | '+' :: rest =>
    match rest, parseDigits rest 0 with
    | _ :: _, some n => if n < i32Bound then some (n : Int) else none
    | _, _ => none
  | cs =>
    match cs, parseDigits cs 0 with
    | _ :: _, some n => if n < i32Bound then some (n : Int) else none
    | _, _ => none

/-- Rust `struct MemInfo` (src/main.rs lines 44-50), fields in source order.
`Default` gives all fields zero, including `pid`. -/
structure MemInfo where
  pid : Int
  gtt_bytes : Nat
  vram_bytes : Nat
  unknown_bytes : Nat
deriving DecidableEq, Repr

def defaultMemInfo : MemInfo := ⟨0, 0, 0, 0⟩

/-- Lookup in the association-list model of `mem_infos`. -/
def lookupEntry : List (Int × MemInfo) → Int → Option MemInfo
  | [], _ => none
  | (k', v) :: rest, k => if k' = k then some v else lookupEntry rest k

def getEntry (m : List (Int × MemInfo)) (k : Int) : MemInfo :=
  (lookupEntry m k).getD defaultMemInfo

/-- Rust `mem_infos.entry(cur_pid).or_default()` followed by the mutation
`f` of the fetched-or-inserted entry. -/
def updateEntry : List (Int × MemInfo) → Int → (MemInfo → MemInfo) → List (Int × MemInfo)
  | [], k, f => [(k, f defaultMemInfo)]
  | (k', v) :: rest, k, f =>
    if k' = k then (k', f v) :: rest else (k', v) :: updateEntry rest k f

/-- The state mutated by the `process_line` closure: `cur_pid`
(src/main.rs line 53) and `mem_infos` (line 52). -/
structure ParseState where
  cur_pid : Int
  mem_infos : List (Int × MemInfo)
deriving DecidableEq, Repr

def initState : ParseState := ⟨-1, []⟩

/-- The `match memory_type` arms of `process_line` (src/main.rs lines
69-73); u64 wrapping addition. -/
def addBytes (mi : MemInfo) (memory_type : String) (bytes : Nat) : MemInfo :=
  if memory_type = "VRAM" then
    { mi with vram_bytes := (mi.vram_bytes + bytes) % u64Mod }
  else if memory_type = "GTT" then
    { mi with gtt_bytes := (mi.gtt_bytes + bytes) % u64Mod }
  else
    { mi with unknown_bytes := (mi.unknown_bytes + bytes) % u64Mod }

/-- Rust closure `process_line` (src/main.rs lines 55-78).  Every `?` /
`.ok()?` early exit leaves the state unchanged, which is modelled by
returning `s`.  Note the first token is consumed by the `match`; for a
non-`"pid"` line the bytes come from the second token, the third is
skipped, and the memory type is the fourth. -/
def process_line (s : ParseState) (line : String) : ParseState :=
  match splitWS line with
  | [] => s
  | tok :: rest =>
    if tok = "pid" then
      match rest with
      | [] => s
      | pidTok :: _ =>
        match parseI32 pidTok with
        | some pid => { s with cur_pid := pid }
        | none => s
    else
      match rest with
      | bytesTok :: _skip :: memTok :: _ =>
        match parseU64 bytesTok with
        | some bytes =>
          { s with
            mem_infos := updateEntry s.mem_infos s.cur_pid (fun mi => addBytes mi memTok bytes) }
        | none => s
      | _ => s

/-- The whole parse pass (src/main.rs lines 80-82). -/
def accumulate (lines : List String) : ParseState :=
  lines.foldl process_line initState

/-- `mem_infos.iter().map(...)` (src/main.rs lines 84-90): each stored entry
with its `pid` field replaced by the map key. -/
def entriesWithPid (s : ParseState) : List MemInfo :=
  s.mem_infos.map (fun p => { p.2 with pid := p.1 })

/-- The sort key of src/main.rs line 93: `vram_bytes + gtt_bytes` as a u64
(wrapping) under `std::cmp::Reverse`. -/
def sortKey (mi : MemInfo) : Nat := (mi.vram_bytes + mi.gtt_bytes) % u64Mod

/-- Stable descending insertion: `x` goes in front of the first element
whose key is `≤` its own. -/
def insertDesc (x : MemInfo) : List MemInfo → List MemInfo
  | [] => [x]
  | y :: ys => if sortKey y ≤ sortKey x then x :: y :: ys else y :: insertDesc x ys

/-- Model of `slice::sort_by_key` with key `Reverse(vram + gtt)`
(src/main.rs lines 92-93): the unique stable descending sort. -/
def sortByKeyDesc : List MemInfo → List MemInfo
  | [] => []
  | x :: xs => insertDesc x (sortByKeyDesc xs)

/-- The report loop (src/main.rs lines 125-128): the sorted entries, minus
those whose `pid` equals `0`. -/
def renderedEntries (lines : List String) : List MemInfo :=
  (sortByKeyDesc (entriesWithPid (accumulate lines))).filter (fun mi => mi.pid != 0)

/-- Loop body of Rust `checked_log` (src/main.rs lines 22-27), with
explicit fuel; since the loop divides `r` by `base ≥ 2` each iteration,
`fuel = x` always suffices. -/
def logAux : Nat → Nat → Nat → Nat
  | 0, _, _ => 0
  | fuel + 1, r, base => if base ≤ r then logAux fuel (r / base) base + 1 else 0

/-- Rust `checked_log` (src/main.rs lines 17-30). -/
def checked_log (x base : Nat) : Option Nat :=
  if x = 0 ∨ base ≤ 1 then none else some (logAux x x base)

/-- Rust `log` (src/main.rs lines 32-38). -/
def log (x base : Nat) : Nat :=
  match checked_log x base with
  | some n => n
  | none => 0

def SUFFIXES : List String := ["", "KiB", "MiB", "GiB"]

/-- Round `num / den` to the nearest integer, ties to even — the rounding
Rust float formatting applies; exact here because every reachable quotient
has a power-of-two denominator and numerator below `2 ^ 53`. -/
def roundHalfEven (num den : Nat) : Nat :=
  let q := num / den
  let r := num % den
  if 2 * r < den then q
  else if den < 2 * r then q + 1
  else if q % 2 = 0 then q else q + 1

def pad2 (k : Nat) : String :=
  if k < 10 then "0" ++ toString k else toString k

/-- Rust `format!("{:.2}", ...)` of the exact quotient `n / d`. -/
def formatFixed2 (n d : Nat) : String :=
  let h := roundHalfEven (n * 100) d
  toString (h / 100) ++ "." ++ pad2 (h % 100)

/-- Rust `impl Display for FormatBytes` (src/main.rs lines 103-116).
`divisions` is clamped with `SUFFIXES.len()` (not `len() - 1`), so
`SUFFIXES[divisions]` can be evaluated out of bounds — a panic, modelled
as `none`. -/
def format_bytes (bytes : Nat) : Option String :=
  if bytes = 0 then some (toString bytes)
  else
    let divisions := min (log bytes 1024) SUFFIXES.length
    match SUFFIXES.get? divisions with
    | none => none
    | some suffix => some (formatFixed2 bytes (1024 ^ divisions) ++ " " ++ suffix)

/-- The allocation-line reading implicit in `process_line`: the parsed
`bytes` and the memory-type token of a line that reaches the accumulator
update. -/
def parseAllocation (line : String) : Option (Nat × String) :=
  match splitWS line with
  | tok :: bytesTok :: _skip :: memTok :: _ =>
    if tok = "pid" then none
    else
      match parseU64 bytesTok with
      | some b => some (b, memTok)
      | none => none
  | _ => none

/-- The bytes a line contributes to the counters selected by `pick`. -/
def contribBy (pick : String → Bool) (line : String) : Nat :=
  match parseAllocation line with
  | some (b, t) => if pick t then b else 0
  | none => 0

/-- The bytes a line contributes to any counter at all. -/
def lineBytes (line : String) : Nat :=
  match parseAllocation line with
  | some (b, _) => b
  | none => 0

def sumBy (g : MemInfo → Nat) (m : List (Int × MemInfo)) : Nat :=
  (m.map (fun p => g p.2)).sum

def vramLineSum (lines : List String) : Nat :=
  (lines.map (contribBy (fun t => t == "VRAM"))).sum

def gttLineSum (lines : List String) : Nat :=
  (lines.map (contribBy (fun t => t == "GTT"))).sum

example : splitWS " pid  42  x" = ["pid", "42", "x"] := by decide
example : parseU64 "18446744073709551615" = some (u64Mod - 1) := by decide
example : parseU64 "18446744073709551616" = none := by decide
example : parseI32 "-2147483648" = some (-(2 ^ 31)) := by decide
example : parseI32 "2147483648" = none := by decide
example : process_line initState "pid 42" = ⟨42, []⟩ := by decide
example : accumulate ["pid 42", "0x1 1024 byte VRAM"] =
    ⟨42, [(42, ⟨0, 0, 1024, 0⟩)]⟩ := by decide
example : format_bytes 0 = some "0" := by decide
example : format_bytes 1024 = some "1.00 KiB" := by decide
example : format_bytes 1536 = some "1.50 KiB" := by decide
example : format_bytes 1073741824 = some "1.00 GiB" := by decide
example : format_bytes (2 ^ 40) = none := by decide
example : format_bytes 1 = some "1.00 " := by decide

theorem lookup_updateEntry_self (m : List (Int × MemInfo)) (k : Int) (f : MemInfo → MemInfo) :
    lookupEntry (updateEntry m k f) k = some (f (getEntry m k)) := by
  induction m with
  | nil => simp [updateEntry, lookupEntry, getEntry]
  | cons p rest ih =>
    obtain ⟨k', v⟩ := p
    by_cases h : k' = k
    · subst h
      simp [updateEntry, lookupEntry, getEntry]
    · simp [updateEntry, lookupEntry, getEntry, h, ih]

theorem lookup_updateEntry_ne (m : List (Int × MemInfo)) (k : Int) (f : MemInfo → MemInfo)
    (p : Int) (h : p ≠ k) :
    lookupEntry (updateEntry m k f) p = lookupEntry m p := by
  induction m with
  | nil =>
    simp only [updateEntry, lookupEntry]
    rw [if_neg (fun hh => h hh.symm)]
  | cons q rest ih =>
    obtain ⟨k', v⟩ := q
    by_cases hk : k' = k
    · subst hk
      have : k' ≠ p := fun hh => h hh.symm
      simp [updateEntry, lookupEntry, this]
    · by_cases hp : k' = p
      · subst hp
        simp [updateEntry, lookupEntry, hk]
      · simp [updateEntry, lookupEntry, hk, hp, ih]

theorem lookupEntry_mem {m : List (Int × MemInfo)} {k : Int} {v : MemInfo}
    (h : lookupEntry m k = some v) : (k, v) ∈ m := by
  induction m with
  | nil => simp [lookupEntry] at h
  | cons q rest ih =>
    obtain ⟨k', w⟩ := q
    by_cases hk : k' = k
    · subst hk
      have hwv : w = v := by simpa [lookupEntry] using h
      subst hwv
      exact List.mem_cons_self _ _
    · simp [lookupEntry, hk] at h
      exact List.mem_cons_of_mem _ (ih h)

theorem sumBy_updateEntry (g : MemInfo → Nat) (hg : g defaultMemInfo = 0)
    (m : List (Int × MemInfo)) (k : Int) (f : MemInfo → MemInfo) :
    sumBy g (updateEntry m k f) + g (getEntry m k)
      = sumBy g m + g (f (getEntry m k)) := by
  induction m with
  | nil => simp [updateEntry, sumBy, getEntry, lookupEntry, hg]
  | cons q rest ih =>
    obtain ⟨k', v⟩ := q
    by_cases h : k' = k
    · subst h
      simp [updateEntry, sumBy, getEntry, lookupEntry]
      omega
    · simp [updateEntry, sumBy, getEntry, lookupEntry, h] at ih ⊢
      omega

theorem mem_insertDesc {a x : MemInfo} {l : List MemInfo} :
    a ∈ insertDesc x l ↔ a = x ∨ a ∈ l := by
  induction l with
  | nil => simp [insertDesc]
  | cons y ys ih =>
    by_cases h : sortKey y ≤ sortKey x
    · simp [insertDesc, h, List.mem_cons]
    · simp [insertDesc, h, List.mem_cons, ih]
      tauto

theorem mem_sortByKeyDesc {a : MemInfo} {l : List MemInfo} :
    a ∈ sortByKeyDesc l ↔ a ∈ l := by
  induction l with
  | nil => simp [sortByKeyDesc]
  | cons x xs ih => simp [sortByKeyDesc, mem_insertDesc, ih, List.mem_cons]

theorem pairwise_insertDesc {x : MemInfo} {l : List MemInfo}
    (h : l.Pairwise (fun a b => sortKey b ≤ sortKey a)) :
    (insertDesc x l).Pairwise (fun a b => sortKey b ≤ sortKey a) := by
  induction l with
  | nil => simp [insertDesc]
  | cons y ys ih =>
    cases h with
    | cons hy hys =>
      by_cases hle : sortKey y ≤ sortKey x
      · rw [insertDesc, if_pos hle]
        refine List.Pairwise.cons ?_ (List.Pairwise.cons hy hys)
        intro b hb
        rcases List.mem_cons.mp hb with hb | hb
        · subst hb; exact hle
        · exact le_trans (hy b hb) hle
      · rw [insertDesc, if_neg hle]
        refine List.Pairwise.cons ?_ (ih hys)
        intro b hb
        rcases mem_insertDesc.mp hb with hb | hb
        · subst hb; exact le_of_lt (Nat.lt_of_not_le hle)
        · exact hy b hb

theorem pairwise_sortByKeyDesc (l : List MemInfo) :
    (sortByKeyDesc l).Pairwise (fun a b => sortKey b ≤ sortKey a) := by
  induction l with
  | nil => simp [sortByKeyDesc]
  | cons x xs ih => exact pairwise_insertDesc ih

theorem filter_key_insertDesc (x : MemInfo) (l : List MemInfo) (k : Nat) :
    (insertDesc x l).filter (fun e => sortKey e == k)
      = (if sortKey x = k then [x] else []) ++ l.filter (fun e => sortKey e == k) := by
  induction l with
  | nil =>
    by_cases h : sortKey x = k <;> simp [insertDesc, List.filter_cons, h]
  | cons y ys ih =>
    by_cases hle : sortKey y ≤ sortKey x
    · rw [insertDesc, if_pos hle]
      by_cases hk : sortKey x = k <;>
        by_cases hyk : sortKey y = k <;>
          simp [List.filter_cons, hk, hyk]
    · rw [insertDesc, if_neg hle]
      by_cases hk : sortKey x = k
      · have hyk : ¬ sortKey y = k := by
          have := Nat.lt_of_not_le hle
          omega
        simp [List.filter_cons, hk, hyk, ih]
      · by_cases hyk : sortKey y = k <;>
          simp [List.filter_cons, hk, hyk, ih]

theorem filter_key_sortByKeyDesc (l : List MemInfo) (k : Nat) :
    (sortByKeyDesc l).filter (fun e => sortKey e == k)
      = l.filter (fun e => sortKey e == k) := by
  induction l with
  | nil => simp [sortByKeyDesc]
  | cons x xs ih =>
    rw [sortByKeyDesc, filter_key_insertDesc, ih]
    by_cases hk : sortKey x = k <;> simp [List.filter_cons, hk]

theorem addBytes_vram (mi : MemInfo) (b : Nat) :
    addBytes mi "VRAM" b = { mi with vram_bytes := (mi.vram_bytes + b) % u64Mod } := by
  simp [addBytes]

theorem addBytes_gtt (mi : MemInfo) (b : Nat) :
    addBytes mi "GTT" b = { mi with gtt_bytes := (mi.gtt_bytes + b) % u64Mod } := by
  simp [addBytes]

theorem addBytes_other (mi : MemInfo) (t : String) (b : Nat)
    (h1 : t ≠ "VRAM") (h2 : t ≠ "GTT") :
    addBytes mi t b = { mi with unknown_bytes := (mi.unknown_bytes + b) % u64Mod } := by
  simp [addBytes, h1, h2]

theorem process_line_alloc (s : ParseState) (line tok bytesTok skipTok memTok : String)
    (rest : List String) (b : Nat)
    (hsw : splitWS line = tok :: bytesTok :: skipTok :: memTok :: rest)
    (hnp : tok ≠ "pid") (hb : parseU64 bytesTok = some b) :
    process_line s line
      = { s with
          mem_infos := updateEntry s.mem_infos s.cur_pid (fun mi => addBytes mi memTok b) } := by
  unfold process_line
  rw [hsw]
  simp [hnp, hb]

theorem parseAllocation_alloc (line tok bytesTok skipTok memTok : String)
    (rest : List String) (b : Nat)
    (hsw : splitWS line = tok :: bytesTok :: skipTok :: memTok :: rest)
    (hnp : tok ≠ "pid") (hb : parseU64 bytesTok = some b) :
    parseAllocation line = some (b, memTok) := by
  unfold parseAllocation
  rw [hsw]
  simp [hnp, hb]

/-- Exhaustive behaviour of one `process_line` step: the state is unchanged
and no allocation is read, or only `cur_pid` changes and no allocation is
read, or the line is an allocation record and exactly the entry at
`cur_pid` is upserted. -/
theorem process_line_cases (s : ParseState) (line : String) :
    (process_line s line = s ∧ parseAllocation line = none)
    ∨ (∃ n, process_line s line = { s with cur_pid := n } ∧ parseAllocation line = none)
    ∨ (∃ b t, parseAllocation line = some (b, t)
        ∧ process_line s line
            = { s with
                mem_infos := updateEntry s.mem_infos s.cur_pid (fun mi => addBytes mi t b) }) := by
  rcases hsw : splitWS line with _ | ⟨tok, rest⟩
  · left
    constructor
    · unfold process_line; rw [hsw]
    · unfold parseAllocation; rw [hsw]
  · by_cases hnp : tok = "pid"
    · subst hnp
      rcases rest with _ | ⟨pidTok, rest'⟩
      · left
        constructor
        · unfold process_line; rw [hsw]; simp
        · unfold parseAllocation; rw [hsw]
      · rcases hq : parseI32 pidTok with _ | n
        · left
          constructor
          · unfold process_line; rw [hsw]; simp [hq]
          · unfold parseAllocation; rw [hsw]
            rcases rest' with _ | ⟨sk, _ | ⟨mT, r⟩⟩ <;> simp
        · right; left
          refine ⟨n, ?_, ?_⟩
          · unfold process_line; rw [hsw]; simp [hq]
          · unfold parseAllocation; rw [hsw]
            rcases rest' with _ | ⟨sk, _ | ⟨mT, r⟩⟩ <;> simp
    · rcases rest with _ | ⟨bytesTok, _ | ⟨skipTok, _ | ⟨memTok, r⟩⟩⟩
      · left
        constructor
        · unfold process_line; rw [hsw]; simp [hnp]
        · unfold parseAllocation; rw [hsw]
      · left
        constructor
        · unfold process_line; rw [hsw]; simp [hnp]
        · unfold parseAllocation; rw [hsw]
      · left
        constructor
        · unfold process_line; rw [hsw]; simp [hnp]
        · unfold parseAllocation; rw [hsw]
      · rcases hb : parseU64 bytesTok with _ | b
        · left
          constructor
          · unfold process_line; rw [hsw]; simp [hnp, hb]
          · unfold parseAllocation; rw [hsw]; simp [hnp, hb]
        · right; right
          exact ⟨b, memTok, parseAllocation_alloc line tok bytesTok skipTok memTok r b hsw hnp hb,
            process_line_alloc s line tok bytesTok skipTok memTok r b hsw hnp hb⟩

theorem step_sum (g : MemInfo → Nat) (pick : String → Bool)
    (hadd : ∀ mi t b, g (addBytes mi t b) = if pick t then (g mi + b) % u64Mod else g mi)
    (hg : g defaultMemInfo = 0) (s : ParseState) (line : String) :
    sumBy g (process_line s line).mem_infos
        ≡ sumBy g s.mem_infos + contribBy pick line [MOD u64Mod]
    ∧ sumBy g (process_line s line).mem_infos
        ≤ sumBy g s.mem_infos + contribBy pick line := by
  rcases process_line_cases s line with ⟨he, hn⟩ | ⟨n, he, hn⟩ | ⟨b, t, hp, he⟩
  · rw [he]
    simp [contribBy, hn, Nat.ModEq.refl]
  · rw [he]
    simp [contribBy, hn, Nat.ModEq.refl]
  · have key := sumBy_updateEntry g hg s.mem_infos s.cur_pid (fun mi => addBytes mi t b)
    rw [he]
    simp only [contribBy, hp]
    rw [hadd] at key
    by_cases hpick : pick t
    · simp only [hpick, if_pos] at key ⊢
      constructor
      · have h1 : sumBy g (updateEntry s.mem_infos s.cur_pid (fun mi => addBytes mi t b))
              + g (getEntry s.mem_infos s.cur_pid)
            ≡ (sumBy g s.mem_infos + b) + g (getEntry s.mem_infos s.cur_pid) [MOD u64Mod] := by
          rw [key]
          have h2 : (g (getEntry s.mem_infos s.cur_pid) + b) % u64Mod
              ≡ g (getEntry s.mem_infos s.cur_pid) + b [MOD u64Mod] := Nat.mod_modEq _ _
          calc sumBy g s.mem_infos + (g (getEntry s.mem_infos s.cur_pid) + b) % u64Mod
              ≡ sumBy g s.mem_infos + (g (getEntry s.mem_infos s.cur_pid) + b) [MOD u64Mod] :=
                Nat.ModEq.add_left _ h2
            _ = (sumBy g s.mem_infos + b) + g (getEntry s.mem_infos s.cur_pid) := by omega
        exact Nat.ModEq.add_right_cancel' _ h1
      · have h2 : (g (getEntry s.mem_infos s.cur_pid) + b) % u64Mod
            ≤ g (getEntry s.mem_infos s.cur_pid) + b := Nat.mod_le _ _
        omega
    · simp only [hpick, if_neg, Bool.false_eq_true, not_false_eq_true, if_false] at key ⊢
      have hEq : sumBy g (updateEntry s.mem_infos s.cur_pid (fun mi => addBytes mi t b))
          = sumBy g s.mem_infos := by omega
      rw [hEq]
      simp [Nat.ModEq.refl]

theorem fold_sum (g : MemInfo → Nat) (pick : String → Bool)
    (hadd : ∀ mi t b, g (addBytes mi t b) = if pick t then (g mi + b) % u64Mod else g mi)
    (hg : g defaultMemInfo = 0) (lines : List String) :
    ∀ s : ParseState,
      sumBy g ((lines.foldl process_line s)).mem_infos
          ≡ sumBy g s.mem_infos + (lines.map (contribBy pick)).sum [MOD u64Mod]
      ∧ sumBy g (lines.foldl process_line s).mem_infos
          ≤ sumBy g s.mem_infos + (lines.map (contribBy pick)).sum := by
  induction lines with
  | nil => intro s; simp [Nat.ModEq.refl]
  | cons l ls ih =>
    intro s
    have hstep := step_sum g pick hadd hg s l
    have hrest := ih (process_line s l)
    simp only [List.foldl_cons, List.map_cons, List.sum_cons]
    constructor
    · calc sumBy g ((ls.foldl process_line (process_line s l))).mem_infos
          ≡ sumBy g (process_line s l).mem_infos + (ls.map (contribBy pick)).sum
            [MOD u64Mod] := hrest.1
        _ ≡ (sumBy g s.mem_infos + contribBy pick l) + (ls.map (contribBy pick)).sum
            [MOD u64Mod] := Nat.ModEq.add_right _ hstep.1
        _ = sumBy g s.mem_infos + (contribBy pick l + (ls.map (contribBy pick)).sum) := by
            omega
    · have h1 := hrest.2
      have h2 := hstep.2
      omega

theorem addBytes_vram_sel (mi : MemInfo) (t : String) (b : Nat) :
    (addBytes mi t b).vram_bytes
      = if (t == "VRAM") then (mi.vram_bytes + b) % u64Mod else mi.vram_bytes := by
  by_cases h1 : t = "VRAM"
  · subst h1; simp [addBytes]
  · by_cases h2 : t = "GTT"
    · subst h2; simp [addBytes]
    · simp [addBytes, h1, h2]

theorem addBytes_gtt_sel (mi : MemInfo) (t : String) (b : Nat) :
    (addBytes mi t b).gtt_bytes
      = if (t == "GTT") then (mi.gtt_bytes + b) % u64Mod else mi.gtt_bytes := by
  by_cases h1 : t = "VRAM"
  · subst h1; simp [addBytes]
  · by_cases h2 : t = "GTT"
    · subst h2; simp [addBytes]
    · simp [addBytes, h1, h2]

theorem log_eq_zero_of_lt (b : Nat) (hb : 0 < b) (hlt : b < 1024) : log b 1024 = 0 := by
  unfold log checked_log
  have hcond : ¬ (b = 0 ∨ 1024 ≤ 1) := by omega
  rw [if_neg hcond]
  obtain ⟨b', rfl⟩ : ∃ b'', b = b'' + 1 := ⟨b - 1, by omega⟩
  simp [logAux, Nat.not_le.mpr hlt]

theorem string_concat_cleanup (x : String) :
    x ++ "." ++ "00" ++ " " ++ "" = x ++ ".00 " := by
  apply String.ext
  simp [String.data_append]

/-- C2 (code_bug): the spec and the claim say the tier index is clamped to
`SUFFIXES.len() - 1` so that a count of `2 ^ 40` still renders as GiB.  The
code (src/main.rs line 112) clamps with `SUFFIXES.len()` instead, so for
any count at or above `2 ^ 40` it evaluates `SUFFIXES[4]` on a 4-element
array — an out-of-bounds panic, modelled here as `none`. -/
theorem c2_formatter_out_of_bounds :
    min (log (2 ^ 40) 1024) SUFFIXES.length = SUFFIXES.length
    ∧ SUFFIXES.get? SUFFIXES.length = none
    ∧ format_bytes (2 ^ 40) = none := by
  refine ⟨by decide, by decide, by decide⟩

/-- C7 (confirmed): concrete Byte Formatter outputs — `0` renders as `"0"`
with no suffix and no decimal point; `1024` as `"1.00 KiB"`; `1536` as
`"1.50 KiB"`; `2 ^ 30` as `"1.00 GiB"`; and every nonzero count below 1024
renders with two decimal digits and a trailing space (empty suffix). -/
theorem c7_formatter_values :
    format_bytes 0 = some "0"
    ∧ format_bytes 1024 = some "1.00 KiB"
    ∧ format_bytes 1536 = some "1.50 KiB"
    ∧ format_bytes 1073741824 = some "1.00 GiB"
    ∧ ∀ b : Nat, 0 < b → b < 1024 → format_bytes b = some (toString b ++ ".00 ") := by
  refine ⟨by decide, by decide, by decide, by decide, ?_⟩
  intro b hb hlt
  unfold format_bytes
  rw [if_neg (by omega : ¬ b = 0)]
  rw [log_eq_zero_of_lt b hb hlt]
  show (match SUFFIXES.get? (min 0 SUFFIXES.length) with
    | none => none
    | some suffix => some (formatFixed2 b (1024 ^ min 0 SUFFIXES.length) ++ " " ++ suffix))
      = some (toString b ++ ".00 ")
  rw [Nat.zero_min]
  show some (formatFixed2 b (1024 ^ 0) ++ " " ++ "") = some (toString b ++ ".00 ")
  rw [pow_zero]
  unfold formatFixed2 roundHalfEven
  simp only [Nat.div_one, Nat.mod_one, Nat.mul_zero, Nat.zero_lt_one, if_pos,
    Nat.mul_div_cancel b (by norm_num : (0 : Nat) < 100), Nat.mul_mod_left]
  rw [show pad2 0 = "00" from rfl]
  rw [string_concat_cleanup]

/-- C7 witness: the universally quantified clause of `c7_formatter_values`
instantiated at the concrete count 1. -/
theorem c7_witness : 0 < 1 ∧ format_bytes 1 = some "1.00 " := by
  refine ⟨by decide, ?_⟩
  have h := c7_formatter_values.2.2.2.2 1 (by decide) (by decide)
  exact h

/-- C10 (confirmed): the rendering loop skips exactly the entries whose
process id is 0 — an entry is rendered iff it is an accumulated entry and
its pid is nonzero; in particular the sentinel pid -1 is rendered. -/
theorem c10_skip_pid_zero (lines : List String) (mi : MemInfo) :
    mi ∈ renderedEntries lines
      ↔ mi ∈ entriesWithPid (accumulate lines) ∧ mi.pid ≠ 0 := by
  unfold renderedEntries
  rw [List.mem_filter, mem_sortByKeyDesc]
  simp [bne_iff_ne]

/-- C1 (counterexample): the claim says the sentinel-keyed entry (pid -1,
allocations seen before any context line) is omitted from the rendered
report.  On the single-line input below the accumulator holds exactly the
sentinel entry, and the rendered report contains it — the render loop
omits pid 0, not the sentinel. -/
theorem c1_counterexample :
    renderedEntries ["0x1 256 byte VRAM"]
      = [{ pid := -1, gtt_bytes := 0, vram_bytes := 256, unknown_bytes := 0 }] := by
  decide

/-- C1 (amended): an allocation line before any context line accumulates
under the sentinel pid -1, and that sentinel entry IS rendered (the render
loop excludes exactly pid 0). -/
theorem c1_sentinel_rendered_amended (lines : List String) (m : MemInfo)
    (h : lookupEntry (accumulate lines).mem_infos (-1) = some m) :
    { m with pid := -1 } ∈ renderedEntries lines := by
  have hmem : ((-1 : Int), m) ∈ (accumulate lines).mem_infos := lookupEntry_mem h
  have hent : ({ m with pid := -1 } : MemInfo) ∈ entriesWithPid (accumulate lines) := by
    unfold entriesWithPid
    exact List.mem_map.mpr ⟨((-1 : Int), m), hmem, rfl⟩
  unfold renderedEntries
  rw [List.mem_filter, mem_sortByKeyDesc]
  exact ⟨hent, rfl⟩

/-- C1 witness: `c1_sentinel_rendered_amended` applied to the concrete
input stream of the counterexample. -/
theorem c1_witness :
    ({ pid := -1, gtt_bytes := 0, vram_bytes := 256, unknown_bytes := 0 } : MemInfo)
      ∈ renderedEntries ["0x1 256 byte VRAM"] :=
  c1_sentinel_rendered_amended ["0x1 256 byte VRAM"]
    { pid := 0, gtt_bytes := 0, vram_bytes := 256, unknown_bytes := 0 } (by decide)

theorem addBytes_unknown_sel (mi : MemInfo) (t : String) (b : Nat) :
    (addBytes mi t b).unknown_bytes
      = if (t == "VRAM") || (t == "GTT") then mi.unknown_bytes
        else (mi.unknown_bytes + b) % u64Mod := by
  by_cases h1 : t = "VRAM"
  · subst h1; simp [addBytes]
  · by_cases h2 : t = "GTT"
    · subst h2; simp [addBytes]
    · simp [addBytes, h1, h2]

/-- C3 (counterexample): with two VRAM allocation lines of `2 ^ 64 - 1`
bytes each, the u64 counter wraps, so the accumulated `vram_bytes` total
(`2 ^ 64 - 2`) differs from the mathematical sum of the parsed bytes
(`2 ^ 65 - 2`): exact conservation fails on this stream. -/
theorem c3_counterexample :
    sumBy (fun mi => mi.vram_bytes)
        (accumulate
          ["h 18446744073709551615 b VRAM", "h 18446744073709551615 b VRAM"]).mem_infos
      ≠ vramLineSum ["h 18446744073709551615 b VRAM", "h 18446744073709551615 b VRAM"] := by
  decide

/-- C3 (amended): conservation of attributed bytes holds modulo `2 ^ 64`
(u64 wrapping); when the total VRAM-labelled (resp. GTT-labelled) bytes of
the stream stay below `2 ^ 64`, the accumulated sum equals the line sum
exactly. -/
theorem c3_conservation_amended (lines : List String) :
    sumBy (fun mi => mi.vram_bytes) (accumulate lines).mem_infos % u64Mod
        = vramLineSum lines % u64Mod
    ∧ (vramLineSum lines < u64Mod →
        sumBy (fun mi => mi.vram_bytes) (accumulate lines).mem_infos = vramLineSum lines)
    ∧ sumBy (fun mi => mi.gtt_bytes) (accumulate lines).mem_infos % u64Mod
        = gttLineSum lines % u64Mod
    ∧ (gttLineSum lines < u64Mod →
        sumBy (fun mi => mi.gtt_bytes) (accumulate lines).mem_infos = gttLineSum lines) := by
  have hv := fold_sum (fun mi => mi.vram_bytes) (fun t => t == "VRAM")
    addBytes_vram_sel rfl lines initState
  have hgt := fold_sum (fun mi => mi.gtt_bytes) (fun t => t == "GTT")
    addBytes_gtt_sel rfl lines initState
  rw [show sumBy (fun mi => mi.vram_bytes) initState.mem_infos = 0 from rfl,
    Nat.zero_add] at hv
  rw [show sumBy (fun mi => mi.gtt_bytes) initState.mem_infos = 0 from rfl,
    Nat.zero_add] at hgt
  have hvs : vramLineSum lines = (lines.map (contribBy (fun t => t == "VRAM"))).sum := rfl
  have hgs : gttLineSum lines = (lines.map (contribBy (fun t => t == "GTT"))).sum := rfl
  have hacc : accumulate lines = lines.foldl process_line initState := rfl
  refine ⟨?_, ?_, ?_, ?_⟩
  · rw [hacc, hvs]; exact hv.1
  · intro hlt
    rw [hacc, hvs]
    rw [hvs] at hlt
    calc sumBy (fun mi => mi.vram_bytes) (lines.foldl process_line initState).mem_infos
        = sumBy (fun mi => mi.vram_bytes) (lines.foldl process_line initState).mem_infos
            % u64Mod := (Nat.mod_eq_of_lt (lt_of_le_of_lt hv.2 hlt)).symm
      _ = (lines.map (contribBy (fun t => t == "VRAM"))).sum % u64Mod := hv.1
      _ = (lines.map (contribBy (fun t => t == "VRAM"))).sum := Nat.mod_eq_of_lt hlt
  · rw [hacc, hgs]; exact hgt.1
  · intro hlt
    rw [hacc, hgs]
    rw [hgs] at hlt
    calc sumBy (fun mi => mi.gtt_bytes) (lines.foldl process_line initState).mem_infos
        = sumBy (fun mi => mi.gtt_bytes) (lines.foldl process_line initState).mem_infos
            % u64Mod := (Nat.mod_eq_of_lt (lt_of_le_of_lt hgt.2 hlt)).symm
      _ = (lines.map (contribBy (fun t => t == "GTT"))).sum % u64Mod := hgt.1
      _ = (lines.map (contribBy (fun t => t == "GTT"))).sum := Nat.mod_eq_of_lt hlt

/-- C3 witness: the exactness clause of `c3_conservation_amended` at a
small concrete stream. -/
theorem c3_witness :
    vramLineSum ["pid 42", "0x1 1024 byte VRAM"] < u64Mod
    ∧ sumBy (fun mi => mi.vram_bytes)
        (accumulate ["pid 42", "0x1 1024 byte VRAM"]).mem_infos
      = vramLineSum ["pid 42", "0x1 1024 byte VRAM"] :=
  ⟨by decide, (c3_conservation_amended ["pid 42", "0x1 1024 byte VRAM"]).2.1 (by decide)⟩

/-- C4 (counterexample): the claim says a line whose first token fails to
parse as u64 leaves the state unchanged.  On `"xyz 10 a b"` the first
token `"xyz"` does fail to parse, yet the line is a valid allocation
record (bytes come from the second token), so the state changes. -/
theorem c4_counterexample :
    parseU64 "xyz" = none
    ∧ process_line initState "xyz 10 a b"
        = ⟨-1, [(-1, { pid := 0, gtt_bytes := 0, vram_bytes := 0, unknown_bytes := 10 })]⟩
    ∧ process_line initState "xyz 10 a b" ≠ initState := by
  decide

/-- C4 (amended): for a line whose first token is not `"pid"`, the line is
discarded atomically — state unchanged, no error — exactly when fewer than
four tokens are present, or the SECOND token fails to parse as u64 (the
bytes field is the second token, not the first). -/
theorem c4_discard_amended (s : ParseState) (line tok : String) (rest : List String)
    (hsw : splitWS line = tok :: rest) (hnp : tok ≠ "pid") :
    (rest.length < 3 → process_line s line = s)
    ∧ (∀ bytesTok skipTok memTok r, rest = bytesTok :: skipTok :: memTok :: r →
        parseU64 bytesTok = none → process_line s line = s) := by
  constructor
  · intro hlen
    rcases rest with _ | ⟨a, _ | ⟨c, _ | ⟨d, r⟩⟩⟩
    · unfold process_line; rw [hsw]; simp [hnp]
    · unfold process_line; rw [hsw]; simp [hnp]
    · unfold process_line; rw [hsw]; simp [hnp]
    · exfalso
      simp only [List.length_cons] at hlen
      omega
  · rintro bytesTok skipTok memTok r rfl hnone
    unfold process_line
    rw [hsw]
    simp [hnp, hnone]

/-- C4 witness: the spec's own short-line example `"1024 0x1"` is
discarded. -/
theorem c4_witness : process_line initState "1024 0x1" = initState :=
  (c4_discard_amended initState "1024 0x1" "1024" ["0x1"] (by decide) (by decide)).1
    (by decide)

/-- C5 (counterexample): the claim selects the counter by the THIRD
whitespace token.  On `"100 200 VRAM GTT"` the third token is `"VRAM"`,
yet the code adds 200 (the second token) to `gtt_bytes` — dispatch is on
the fourth token — and `vram_bytes` stays 0. -/
theorem c5_counterexample :
    splitWS "100 200 VRAM GTT" = ["100", "200", "VRAM", "GTT"]
    ∧ process_line initState "100 200 VRAM GTT"
        = ⟨-1, [(-1, { pid := 0, gtt_bytes := 200, vram_bytes := 0, unknown_bytes := 0 })]⟩ := by
  decide

/-- C5 (amended): for a successfully parsed allocation line the bytes are
the SECOND token and the selector is the FOURTH token, matched
case-sensitively: `"VRAM"` adds (mod `2 ^ 64`) to `vram_bytes`, `"GTT"`
to `gtt_bytes`, anything else to `unknown_bytes`; the entry's other two
counters and every other entry are unchanged. -/
theorem c5_dispatch_amended (s : ParseState) (line tok bytesTok skipTok memTok : String)
    (rest : List String) (b : Nat)
    (hsw : splitWS line = tok :: bytesTok :: skipTok :: memTok :: rest)
    (hnp : tok ≠ "pid") (hb : parseU64 bytesTok = some b) :
    lookupEntry (process_line s line).mem_infos s.cur_pid
        = some (addBytes (getEntry s.mem_infos s.cur_pid) memTok b)
    ∧ (∀ p, p ≠ s.cur_pid →
        lookupEntry (process_line s line).mem_infos p = lookupEntry s.mem_infos p)
    ∧ (process_line s line).cur_pid = s.cur_pid
    ∧ (∀ mi, memTok = "VRAM" →
        addBytes mi memTok b = { mi with vram_bytes := (mi.vram_bytes + b) % u64Mod })
    ∧ (∀ mi, memTok = "GTT" →
        addBytes mi memTok b = { mi with gtt_bytes := (mi.gtt_bytes + b) % u64Mod })
    ∧ (∀ mi, memTok ≠ "VRAM" → memTok ≠ "GTT" →
        addBytes mi memTok b = { mi with unknown_bytes := (mi.unknown_bytes + b) % u64Mod }) := by
  have he := process_line_alloc s line tok bytesTok skipTok memTok rest b hsw hnp hb
  refine ⟨?_, ?_, ?_, ?_, ?_, ?_⟩
  · rw [he]; exact lookup_updateEntry_self _ _ _
  · intro p hp; rw [he]; exact lookup_updateEntry_ne _ _ _ _ hp
  · rw [he]
  · rintro mi rfl; exact addBytes_vram mi b
  · rintro mi rfl; exact addBytes_gtt mi b
  · intro mi h1 h2; exact addBytes_other mi memTok b h1 h2

/-- C5 witness: `c5_dispatch_amended` at the unknown label `"CPU"`. -/
theorem c5_witness :
    lookupEntry (process_line initState "h 64 byte CPU").mem_infos initState.cur_pid
      = some (addBytes (getEntry initState.mem_infos initState.cur_pid) "CPU" 64) :=
  (c5_dispatch_amended initState "h 64 byte CPU" "h" "64" "byte" "CPU" [] 64
    (by decide) (by decide) (by decide)).1

/-- C6 (confirmed): for a line whose first token is `"pid"`, the
accumulator is never touched; if the second token parses as an i32 the
context becomes that integer, and if it is absent or unparsable the whole
state is unchanged (no error is raised). -/
theorem c6_context_line (s : ParseState) (line : String) (rest : List String)
    (hsw : splitWS line = "pid" :: rest) :
    (process_line s line).mem_infos = s.mem_infos
    ∧ (rest = [] → process_line s line = s)
    ∧ (∀ pidTok rest' n, rest = pidTok :: rest' → parseI32 pidTok = some n →
        process_line s line = { s with cur_pid := n })
    ∧ (∀ pidTok rest', rest = pidTok :: rest' → parseI32 pidTok = none →
        process_line s line = s) := by
  refine ⟨?_, ?_, ?_, ?_⟩
  · rcases rest with _ | ⟨pidTok, rest'⟩
    · unfold process_line; rw [hsw]; simp
    · rcases hq : parseI32 pidTok with _ | n
      · unfold process_line; rw [hsw]; simp [hq]
      · unfold process_line; rw [hsw]; simp [hq]
  · rintro rfl; unfold process_line; rw [hsw]; simp
  · rintro pidTok rest' n rfl hq; unfold process_line; rw [hsw]; simp [hq]
  · rintro pidTok rest' rfl hq; unfold process_line; rw [hsw]; simp [hq]

/-- C6 witness: the spec's example context line `"pid 42"`. -/
theorem c6_witness :
    process_line initState "pid 42" = { initState with cur_pid := 42 } :=
  (c6_context_line initState "pid 42" ["42"] (by decide)).2.2.1 "42" [] 42 rfl (by decide)

/-- C8 (counterexample): the comparison key is the u64 WRAPPING sum
`(vram + gtt) % 2 ^ 64`, not the mathematical sum.  Process 1 holds
`2 ^ 63` VRAM and `2 ^ 63` GTT bytes, so its key wraps to 0 and it sorts
after process 2 whose key is 1 — yet its mathematical `vram + gtt`
(`2 ^ 64`) is far larger, violating the claim's `A.sum >= B.sum`. -/
theorem c8_counterexample :
    renderedEntries ["pid 1", "h 9223372036854775808 b VRAM",
        "h 9223372036854775808 b GTT", "pid 2", "h 1 b VRAM"]
      = [{ pid := 2, gtt_bytes := 0, vram_bytes := 1, unknown_bytes := 0 },
         { pid := 1, gtt_bytes := 9223372036854775808,
           vram_bytes := 9223372036854775808, unknown_bytes := 0 }]
    ∧ (1 : Nat) + 0 < 9223372036854775808 + 9223372036854775808 := by
  decide

/-- C8 (amended): the rendered output is sorted in descending order on the
u64 wrapping sort key `(vram_bytes + gtt_bytes) % 2 ^ 64`, and the sort is
stable: for every key value, the entries holding that key appear in the
same order as in the accumulated (pre-sort) list. -/
theorem c8_sorted_amended (lines : List String) :
    (renderedEntries lines).Pairwise (fun a b => sortKey b ≤ sortKey a)
    ∧ ∀ k : Nat,
        (sortByKeyDesc (entriesWithPid (accumulate lines))).filter (fun e => sortKey e == k)
          = (entriesWithPid (accumulate lines)).filter (fun e => sortKey e == k) := by
  constructor
  · unfold renderedEntries
    exact (pairwise_sortByKeyDesc (entriesWithPid (accumulate lines))).filter _
  · intro k
    exact filter_key_sortByKeyDesc _ k

/-- C9 (counterexample): ingesting a line CAN decrease a counter when the
u64 addition wraps: after one allocation of `2 ^ 64 - 1` VRAM bytes the
sentinel entry holds `2 ^ 64 - 1`; ingesting one more 1-byte VRAM line
wraps the counter to 0, a strict decrease. -/
theorem c9_counterexample :
    lookupEntry (accumulate ["h 18446744073709551615 b VRAM"]).mem_infos (-1)
        = some { pid := 0, gtt_bytes := 0, vram_bytes := 18446744073709551615,
                 unknown_bytes := 0 }
    ∧ lookupEntry
          (accumulate ["h 18446744073709551615 b VRAM", "h 1 b VRAM"]).mem_infos (-1)
        = some { pid := 0, gtt_bytes := 0, vram_bytes := 0, unknown_bytes := 0 }
    ∧ (0 : Nat) < 18446744073709551615 := by
  decide

/-- C9 (amended): updates are additive modulo `2 ^ 64`; as long as the
affected entry's counters plus the line's parsed bytes stay below
`2 ^ 64` (no u64 wrap), ingesting a line never decreases any counter of
any entry. -/
theorem c9_monotone_amended (s : ParseState) (line : String) (p : Int) (e e' : MemInfo)
    (hbefore : lookupEntry s.mem_infos p = some e)
    (hafter : lookupEntry (process_line s line).mem_infos p = some e')
    (hnof : e.vram_bytes + e.gtt_bytes + e.unknown_bytes + lineBytes line < u64Mod) :
    e.vram_bytes ≤ e'.vram_bytes ∧ e.gtt_bytes ≤ e'.gtt_bytes
    ∧ e.unknown_bytes ≤ e'.unknown_bytes := by
  rcases process_line_cases s line with ⟨he, hn⟩ | ⟨n, he, hn⟩ | ⟨b, t, hp, he⟩
  · rw [he, hbefore] at hafter
    obtain rfl : e = e' := by injection hafter
    exact ⟨le_refl _, le_refl _, le_refl _⟩
  · rw [he] at hafter
    rw [show ({ s with cur_pid := n } : ParseState).mem_infos = s.mem_infos from rfl,
      hbefore] at hafter
    obtain rfl : e = e' := by injection hafter
    exact ⟨le_refl _, le_refl _, le_refl _⟩
  · have hlb : lineBytes line = b := by unfold lineBytes; rw [hp]
    rw [hlb] at hnof
    rw [he] at hafter
    by_cases hpk : p = s.cur_pid
    · subst hpk
      rw [lookup_updateEntry_self] at hafter
      have hge : getEntry s.mem_infos s.cur_pid = e := by
        unfold getEntry; rw [hbefore]; rfl
      rw [hge] at hafter
      obtain rfl : addBytes e t b = e' := by injection hafter
      refine ⟨?_, ?_, ?_⟩
      · rw [addBytes_vram_sel]
        by_cases h1 : (t == "VRAM")
        · rw [if_pos h1, Nat.mod_eq_of_lt (by omega)]
          omega
        · rw [if_neg (by simpa using h1)]
      · rw [addBytes_gtt_sel]
        by_cases h1 : (t == "GTT")
        · rw [if_pos h1, Nat.mod_eq_of_lt (by omega)]
          omega
        · rw [if_neg (by simpa using h1)]
      · rw [addBytes_unknown_sel]
        by_cases h1 : ((t == "VRAM") || (t == "GTT"))
        · rw [if_pos h1]
        · rw [if_neg (by simpa using h1), Nat.mod_eq_of_lt (by omega)]
          omega
    · rw [lookup_updateEntry_ne _ _ _ _ hpk, hbefore] at hafter
      obtain rfl : e = e' := by injection hafter
      exact ⟨le_refl _, le_refl _, le_refl _⟩

/-- C9 witness: `c9_monotone_amended` at a concrete state and line with no
wrap: the GTT counter grows from 0 to 7 and the others stay put. -/
theorem c9_witness :
    ({ pid := 0, gtt_bytes := 0, vram_bytes := 5, unknown_bytes := 0 } : MemInfo).vram_bytes
        ≤ ({ pid := 0, gtt_bytes := 7, vram_bytes := 5, unknown_bytes := 0 } : MemInfo).vram_bytes
    ∧ ({ pid := 0, gtt_bytes := 0, vram_bytes := 5, unknown_bytes := 0 } : MemInfo).gtt_bytes
        ≤ ({ pid := 0, gtt_bytes := 7, vram_bytes := 5, unknown_bytes := 0 } : MemInfo).gtt_bytes
    ∧ ({ pid := 0, gtt_bytes := 0, vram_bytes := 5, unknown_bytes := 0 } : MemInfo).unknown_bytes
        ≤ ({ pid := 0, gtt_bytes := 7, vram_bytes := 5,
             unknown_bytes := 0 } : MemInfo).unknown_bytes :=
  c9_monotone_amended
    ⟨-1, [(-1, { pid := 0, gtt_bytes := 0, vram_bytes := 5, unknown_bytes := 0 })]⟩
    "h 7 byte GTT" (-1)
    { pid := 0, gtt_bytes := 0, vram_bytes := 5, unknown_bytes := 0 }
    { pid := 0, gtt_bytes := 7, vram_bytes := 5, unknown_bytes := 0 }
    (by decide) (by decide) (by decide)
